import Mathlib

/-
Verification of the pycraft AST builder and code generator.

The embedding below follows the Python sources:
  src/pycraft/core/base.py          (BaseNode / BodyNode protocol)
  src/pycraft/core/builder.py       (Builder: context stack, _get_current_body,
                                     _push_node, _pop_node, add_node)
  src/pycraft/builder/control_flow.py (the per-construct context managers)
  src/pycraft/nodes/*.py            (the node dataclasses)
  src/pycraft/generator/base.py     (CodeGenerator)

Conventions of the embedding:
  - Python's mutable node objects become values of the inductive type `Node`;
    the builder's stack holds the node under construction and mutation of the
    top element is modelled by replacing the head of the stack list.
  - The head of `Builder.stack` is the top of the Python stack
    (`self._stack[-1]`).
  - The generator's mutable `self.indent_level` is threaded explicitly: every
    rendering function takes the current level and returns the final level, so
    each `self.indent_level += 1` / `-= 1` pair of the source is visible.
  - Side effects of `CodeGenerator.generate` (print, file write, raise) are
    reified in `GenOutcome` / `Except`.
-/

namespace PyCraft

/-- Value-producing (expression) nodes.  Only the fragment of the expression
language that the builder claims exercise is embedded: `Name(id=...)` from
src/pycraft/nodes/expressions.py, rendered by `_generate_expr` as its `id`. -/
inductive Expr where
  | name (id : String)

/-- `WithItem` from src/pycraft/nodes/context_managers.py: one
`context_expr [as optional_vars]` item of a `with` statement. -/
structure WithItem where
  context_expr : Expr
  optional_vars : Option Expr

/-- Statement nodes, one constructor per dataclass of src/pycraft/nodes that
the claims exercise.  Field names and order follow the Python dataclasses.
`Unknown kind` stands for any `BaseNode` subclass that reaches the final
`else` branch of `CodeGenerator._generate_node` (a node kind with no matching
rendering rule); `kind` is the Python class name. -/
inductive Node where
  | Pass : Node
  | ExprStmt (value : Option Expr) : Node
  | If (test : Expr) (body : List Node) (or_else : List Node) : Node
  | Elif (test : Expr) (body : List Node) : Node
  | Else (body : List Node) : Node
  | For (target : Expr) (iter : Expr) (body : List Node) (or_else : List Node) : Node
  | AsyncFor (target : Expr) (iter : Expr) (body : List Node) (or_else : List Node) : Node
  | While (test : Expr) (body : List Node) (or_else : List Node) : Node
  | Try (body : List Node) (handlers : List Node) (or_else : List Node) (finalbody : List Node) : Node
  | ExceptHandler (type : Option Expr) (name : Option String) (body : List Node) : Node
  | Match (subject : Expr) (cases : List Node) : Node
  | MatchCase (pattern : Expr) (guard : Option Expr) (body : List Node) : Node
  | With (items : List WithItem) (body : List Node) : Node
  | Unknown (kind : String) : Node

/-- Python string repetition `s * n`, used by the generator as
`self.indent_char * self.indent_level`. -/
def strRepeat (s : String) : Nat → String
  | 0 => ""
  | n + 1 => s ++ strRepeat s n

/-- Python `sep.join(parts)`. -/
def strJoin (sep : String) : List String → String
  | [] => ""
  | [x] => x
  | x :: xs => x ++ sep ++ strJoin sep xs

/-- `CodeGenerator._generate_expr`, restricted to the embedded expression
fragment: a `Name` renders as its `id`. -/
def genExpr : Expr → String
  | .name id => id

/-- `CodeGenerator._safe_generate_expr`: `None` renders as the empty string. -/
def safeGenExpr : Option Expr → String
  | none => ""
  | some e => genExpr e

/-- `CodeGenerator._generate_with_item`. -/
def genWithItem (item : WithItem) : String :=
  match item.optional_vars with
  | some v => safeGenExpr (some item.context_expr) ++ " as " ++ genExpr v
  | none => safeGenExpr (some item.context_expr)

mutual

/-- `CodeGenerator._generate_node`: renders one node at indentation level `st`
and returns the rendered text together with the final value of the mutable
`self.indent_level` counter.  Each case mirrors the corresponding
`isinstance` branch of the source, including the `indent_level += 1` before a
body and `-= 1` after it, the unconditional recursion over a conditional's
`or_else` / a `try`'s `handlers` / a `match`'s `cases`, and the `if node.or_else:`
/ `if node.finalbody:` guards of the loop and `try` rules. -/
def genNode (ic : String) (st : Nat) : Node → String × Nat
  | .Pass => (strRepeat ic st ++ "pass", st)
  | .ExprStmt v => (strRepeat ic st ++ safeGenExpr v, st)
  | .Unknown kind => (strRepeat ic st ++ "# Unknown node: " ++ kind, st)
  | .If t body oe =>
      let r1 := genNodesLines ic (st + 1) body
      let r2 := genNodeSeq ic (r1.2 - 1) oe
      (strJoin "\n" ((strRepeat ic st ++ "if " ++ safeGenExpr (some t) ++ ":") ::
        strJoin "\n" r1.1 :: r2.1), r2.2)
  | .Elif t body =>
      let r1 := genNodesLines ic (st + 1) body
      (strJoin "\n" [ strRepeat ic st ++ "elif " ++ safeGenExpr (some t) ++ ":",
        strJoin "\n" r1.1], r1.2 - 1)
  | .Else body =>
      let r1 := genNodesLines ic (st + 1) body
      (strJoin "\n" [ strRepeat ic st ++ "else:", strJoin "\n" r1.1], r1.2 - 1)
  | .For tgt it body oe =>
      let r1 := genNodesLines ic (st + 1) body
      if oe.isEmpty then
        (strJoin "\n" [ strRepeat ic st ++ "for " ++ safeGenExpr (some tgt) ++ " in " ++
          safeGenExpr (some it) ++ ":", strJoin "\n" r1.1], r1.2 - 1)
      else
        let r2 := genNodesLines ic ((r1.2 - 1) + 1) oe
        (strJoin "\n" [ strRepeat ic st ++ "for " ++ safeGenExpr (some tgt) ++ " in " ++
          safeGenExpr (some it) ++ ":", strJoin "\n" r1.1,
          strRepeat ic st ++ "else:", strJoin "\n" r2.1], r2.2 - 1)
  | .AsyncFor tgt it body oe =>
      let r1 := genNodesLines ic (st + 1) body
      if oe.isEmpty then
        (strJoin "\n" [ strRepeat ic st ++ "async for " ++ safeGenExpr (some tgt) ++ " in " ++
          safeGenExpr (some it) ++ ":", strJoin "\n" r1.1], r1.2 - 1)
      else
        let r2 := genNodesLines ic ((r1.2 - 1) + 1) oe
        (strJoin "\n" [ strRepeat ic st ++ "async for " ++ safeGenExpr (some tgt) ++ " in " ++
          safeGenExpr (some it) ++ ":", strJoin "\n" r1.1,
          strRepeat ic st ++ "else:", strJoin "\n" r2.1], r2.2 - 1)
  | .While t body oe =>
      let r1 := genNodesLines ic (st + 1) body
      if oe.isEmpty then
        (strJoin "\n" [ strRepeat ic st ++ "while " ++ safeGenExpr (some t) ++ ":",
          strJoin "\n" r1.1], r1.2 - 1)
      else
        let r2 := genNodesLines ic ((r1.2 - 1) + 1) oe
        (strJoin "\n" [ strRepeat ic st ++ "while " ++ safeGenExpr (some t) ++ ":",
          strJoin "\n" r1.1, strRepeat ic st ++ "else:", strJoin "\n" r2.1], r2.2 - 1)
  | .Try body handlers oe fb =>
      let r1 := genNodesLines ic (st + 1) body
      let r2 := genNodeSeq ic (r1.2 - 1) handlers
      let head := (strRepeat ic st ++ "try:") :: strJoin "\n" r1.1 :: r2.1
      if oe.isEmpty then
        if fb.isEmpty then
          (strJoin "\n" head, r2.2)
        else
          let r4 := genNodesLines ic (r2.2 + 1) fb
          (strJoin "\n" (head ++ [ strRepeat ic st ++ "finally:", strJoin "\n" r4.1]),
            r4.2 - 1)
      else
        let r3 := genNodesLines ic (r2.2 + 1) oe
        if fb.isEmpty then
          (strJoin "\n" (head ++ [ strRepeat ic st ++ "else:", strJoin "\n" r3.1]),
            r3.2 - 1)
        else
          let r4 := genNodesLines ic ((r3.2 - 1) + 1) fb
          (strJoin "\n" (head ++ [ strRepeat ic st ++ "else:", strJoin "\n" r3.1,
            strRepeat ic st ++ "finally:", strJoin "\n" r4.1]), r4.2 - 1)
  | .ExceptHandler ty nm body =>
      let type_str :=
        match ty with
        | some t => safeGenExpr (some t) ++
            (match nm with
             | some n => if n = "" then "" else " as " ++ n
             | none => "")
        | none =>
            match nm with
            | some n => if n = "" then "" else " " ++ n
            | none => ""
      let except_line := (strRepeat ic st ++ "except") ++
        (if type_str = "" then "" else " " ++ type_str) ++ ":"
      let r1 := genNodesLines ic (st + 1) body
      (strJoin "\n" [except_line, strJoin "\n" r1.1], r1.2 - 1)
  | .Match subj cases =>
      let r := genNodeSeq ic (st + 1) cases
      (strJoin "\n" ((strRepeat ic st ++ "match " ++ safeGenExpr (some subj) ++ ":") :: r.1),
        r.2 - 1)
  | .MatchCase pat guard body =>
      let guard_str :=
        match guard with
        | some g => " if " ++ safeGenExpr (some g)
        | none => ""
      let r1 := genNodesLines ic (st + 1) body
      (strJoin "\n" [ strRepeat ic st ++ "case " ++ safeGenExpr (some pat) ++ guard_str ++ ":",
        strJoin "\n" r1.1], r1.2 - 1)
  | .With items body =>
      let r1 := genNodesLines ic (st + 1) body
      (strJoin "\n" [ strRepeat ic st ++ "with " ++
        strJoin ", " (items.map genWithItem) ++ ":", strJoin "\n" r1.1], r1.2 - 1)

/-- The loop body of `CodeGenerator._generate_nodes`: renders each node in
turn, keeping only the non-empty rendered strings (Python `if code:`), and
threads the indentation counter. -/
def genNodesLines (ic : String) (st : Nat) : List Node → List String × Nat
  | [] => ([], st)
  | n :: rest =>
      let r := genNode ic st n
      let rs := genNodesLines ic r.2 rest
      (if r.1 = "" then rs.1 else r.1 :: rs.1, rs.2)

/-- The `for ... : lines.append(self._generate_node(x))` loops of the `If`,
`Try` and `Match` rules: every rendered string is kept, no emptiness filter. -/
def genNodeSeq (ic : String) (st : Nat) : List Node → List String × Nat
  | [] => ([], st)
  | n :: rest =>
      let r := genNode ic st n
      let rs := genNodeSeq ic r.2 rest
      (r.1 :: rs.1, rs.2)

end

/-- `CodeGenerator._generate_nodes`: render a node list and join the
non-empty results with newlines. -/
def genNodes (ic : String) (st : Nat) (ns : List Node) : String × Nat :=
  let r := genNodesLines ic st ns
  (strJoin "\n" r.1, r.2)

/-- The `mode` argument of `CodeGenerator.generate`. -/
inductive Mode where
  | console
  | file

/-- Reified effects of one `CodeGenerator.generate` call: the returned text,
what was printed to the console (if anything), and the file that was written
(full path together with its contents), if any. -/
structure GenOutcome where
  returned : String
  printed : Option String
  written : Option (String × String)

/-- The stack entries of `Builder._stack`.  `node` is an ordinary node pushed
by `_push_node`; `finallyAcc` is a `FinallyBuilder` instance, which pushes
itself and accumulates statements in its `temp_body` list (exposed to
`_get_current_body` through its `body` property). -/
inductive Frame where
  | node (n : Node)
  | finallyAcc (temp_body : List Node)

/-- `Builder` state (src/pycraft/core/builder.py): the top-level node sequence
and the stack of currently open nodes.  The head of `stack` is the Python
stack's last element (the innermost open node). -/
structure Builder where
  root_nodes : List Node
  stack : List Frame

/-- The Python `isinstance(node, BodyNode)` test: `BodyNode` is a runtime
checkable protocol requiring a `body` attribute, so this holds exactly for
the node dataclasses declaring a `body` field. -/
def hasBody : Node → Bool
  | .If .. | .Elif .. | .Else .. | .For .. | .AsyncFor .. | .While .. | .Try ..
  | .ExceptHandler .. | .MatchCase .. | .With .. => true
  | _ => false

/-- Read the `body` field of a node (empty for nodes without one). -/
def getBody : Node → List Node
  | .If _ b _ => b
  | .Elif _ b => b
  | .Else b => b
  | .For _ _ b _ => b
  | .AsyncFor _ _ b _ => b
  | .While _ b _ => b
  | .Try b _ _ _ => b
  | .ExceptHandler _ _ b => b
  | .MatchCase _ _ b => b
  | .With _ b => b
  | _ => []

/-- Replace the `body` field of a node (identity for nodes without one). -/
def setBody : Node → List Node → Node
  | .If t _ oe, b => .If t b oe
  | .Elif t _, b => .Elif t b
  | .Else _, b => .Else b
  | .For tg it _ oe, b => .For tg it b oe
  | .AsyncFor tg it _ oe, b => .AsyncFor tg it b oe
  | .While t _ oe, b => .While t b oe
  | .Try _ h oe f, b => .Try b h oe f
  | .ExceptHandler ty nm _, b => .ExceptHandler ty nm b
  | .MatchCase p g _, b => .MatchCase p g b
  | .With i _, b => .With i b
  | n, _ => n

/-- The auto-fill step shared by `Builder._pop_node` and every
`__exit__` handler of src/pycraft/builder/control_flow.py:
`if isinstance(node, BodyNode) and not node.body: node.body.append(Pass())`. -/
def fillEmptyBody (n : Node) : Node :=
  if hasBody n && (getBody n).isEmpty then setBody n [.Pass] else n

/-- Whether a stack frame satisfies `isinstance(parent, BodyNode)`:
a `FinallyBuilder` exposes a `body` property, so it always does. -/
def frameHasBody : Frame → Bool
  | .node n => hasBody n
  | .finallyAcc _ => true

/-- `Builder._get_current_body(...).append(x)`: append to the body of the
stack top if it has one, otherwise to the top-level sequence (this includes
the case of a non-`BodyNode` stack top such as a `Match`, for which
`_get_current_body` falls through to `root_nodes`). -/
def appendCurrent (b : Builder) (x : Node) : Builder :=
  match b.stack with
  | [] => { b with root_nodes := b.root_nodes ++ [x] }
  | .node n :: rest =>
      if hasBody n then
        { b with stack := .node (setBody n (getBody n ++ [x])) :: rest }
      else
        { b with root_nodes := b.root_nodes ++ [x] }
  | .finallyAcc temp :: rest =>
      { b with stack := .finallyAcc (temp ++ [x]) :: rest }

/-- `Builder.add_node`. -/
def addNode (b : Builder) (x : Node) : Builder :=
  appendCurrent b x

/-- Add a sequence of statements with repeated `add_node` calls. -/
def addAll (b : Builder) (xs : List Node) : Builder :=
  xs.foldl addNode b

/-- `Builder._push_node`. -/
def pushNode (b : Builder) (n : Node) : Builder :=
  { b with stack := .node n :: b.stack }

/-- `Builder._pop_node`: pop the top node, auto-fill an empty body with
`Pass`, and append the node to the new current insertion target.  The two
remaining branches cannot arise from the scoped construction operations (an
empty stack makes the Python `pop()` raise, and a `FinallyBuilder` frame is
popped only by its own `__exit__`), and are left inert. -/
def popNode (b : Builder) : Builder :=
  match b.stack with
  | [] => b
  | .node n :: rest => appendCurrent { b with stack := rest } (fillEmptyBody n)
  | .finallyAcc _ :: rest => { b with stack := rest }

/-- `Builder.__exit__` → `_ensure_pass_in_empty_bodies`: fill empty bodies of
the top-level nodes. -/
def ensurePassInEmptyBodies (b : Builder) : Builder :=
  { b with root_nodes := b.root_nodes.map fillEmptyBody }

/-- `Builder()` with empty root list and stack. -/
def Builder.empty : Builder :=
  { root_nodes := [], stack := [] }

/-- `IfBuilder.__enter__`: push a fresh `If(test, body=[], or_else=[])`. -/
def ifOpen (b : Builder) (test : Expr) : Builder :=
  pushNode b (.If test [] [])

/-- `IfBuilder.__exit__`. -/
def ifClose (b : Builder) : Builder :=
  popNode b

/-- `ElifBuilder.__enter__`: push a fresh `Elif(test, body=[])`. -/
def elifOpen (b : Builder) (test : Expr) : Builder :=
  pushNode b (.Elif test [])

/-- `ElifBuilder.__exit__`: pop, auto-fill, then append the popped node
*whole* to the parent's `or_else` when the new stack top is an `If`, `While`
or `Try`; otherwise fall back to an ordinary append at the current insertion
target; with an empty stack, append to `root_nodes`. -/
def elifClose (b : Builder) : Builder :=
  match b.stack with
  | [] => b
  | .finallyAcc _ :: rest => { b with stack := rest }
  | .node n :: rest =>
      let node := fillEmptyBody n
      match rest with
      | [] => { b with stack := [], root_nodes := b.root_nodes ++ [node] }
      | parent :: rs =>
          match parent with
          | .node (.If t bd oe) =>
              { b with stack := .node (.If t bd (oe ++ [node])) :: rs }
          | .node (.While t bd oe) =>
              { b with stack := .node (.While t bd (oe ++ [node])) :: rs }
          | .node (.Try bd hs oe fb) =>
              { b with stack := .node (.Try bd hs (oe ++ [node]) fb) :: rs }
          | _ => appendCurrent { b with stack := rest } node

/-- `ElseBuilder.__enter__`: push a fresh `Else(body=[])`. -/
def elseOpen (b : Builder) : Builder :=
  pushNode b (.Else [])

/-- `ElseBuilder.__exit__`: pop, auto-fill, then — when the new stack top is
an `If`, `While` or `Try` and the popped node has a body — extend the
parent's `or_else` with the popped node's *statements*, discarding the
wrapper; otherwise fall back to an ordinary append; with an empty stack,
append to `root_nodes`. -/
def elseClose (b : Builder) : Builder :=
  match b.stack with
  | [] => b
  | .finallyAcc _ :: rest => { b with stack := rest }
  | .node n :: rest =>
      let node := fillEmptyBody n
      match rest with
      | [] => { b with stack := [], root_nodes := b.root_nodes ++ [node] }
      | parent :: rs =>
          match parent, hasBody node with
          | .node (.If t bd oe), true =>
              { b with stack := .node (.If t bd (oe ++ getBody node)) :: rs }
          | .node (.While t bd oe), true =>
              { b with stack := .node (.While t bd (oe ++ getBody node)) :: rs }
          | .node (.Try bd hs oe fb), true =>
              { b with stack := .node (.Try bd hs (oe ++ getBody node) fb) :: rs }
          | _, _ => appendCurrent { b with stack := rest } node

/-- `MatchBuilder.__enter__`: push a fresh `Match(subject, cases=[])`. -/
def matchOpen (b : Builder) (subject : Expr) : Builder :=
  pushNode b (.Match subject [])

/-- `MatchBuilder.__exit__`. -/
def matchClose (b : Builder) : Builder :=
  popNode b

/-- `CaseBuilder.__enter__`: push a fresh `MatchCase(pattern, guard, body=[])`. -/
def caseOpen (b : Builder) (pattern : Expr) (guard : Option Expr) : Builder :=
  pushNode b (.MatchCase pattern guard [])

/-- `CaseBuilder.__exit__`: pop, auto-fill; append the clause to the new
stack top's case list only when that top is a `Match`; in every other
situation the clause is dropped without any fallback. -/
def caseClose (b : Builder) : Builder :=
  match b.stack with
  | [] => b
  | .finallyAcc _ :: rest => { b with stack := rest }
  | .node n :: rest =>
      let node := fillEmptyBody n
      match rest with
      | .node (.Match s cs) :: rs =>
          { b with stack := .node (.Match s (cs ++ [node])) :: rs }
      | _ => { b with stack := rest }

/-- `ForBuilder.__enter__`: push a fresh `For`/`AsyncFor` according to the
`is_async` flag. -/
def forOpen (b : Builder) (target iter : Expr) (is_async : Bool) : Builder :=
  pushNode b (if is_async then .AsyncFor target iter [] [] else .For target iter [] [])

/-- `ForBuilder.__exit__`. -/
def forClose (b : Builder) : Builder :=
  popNode b

/-- `WhileBuilder.__enter__`: push a fresh `While(test, body=[], or_else=[])`. -/
def whileOpen (b : Builder) (test : Expr) : Builder :=
  pushNode b (.While test [] [])

/-- `WhileBuilder.__exit__`. -/
def whileClose (b : Builder) : Builder :=
  popNode b

/-- `TryBuilder.__enter__`: push a fresh
`Try(body=[], handlers=[], or_else=[], finalbody=[])`. -/
def tryOpen (b : Builder) : Builder :=
  pushNode b (.Try [] [] [] [])

/-- `TryBuilder.__exit__`. -/
def tryClose (b : Builder) : Builder :=
  popNode b

/-- `ExceptBuilder.__enter__`: push a fresh `ExceptHandler(type, name, body=[])`. -/
def exceptOpen (b : Builder) (exc_type : Option Expr) (name : Option String) : Builder :=
  pushNode b (.ExceptHandler exc_type name [])

/-- `ExceptBuilder.__exit__`: pop, auto-fill; append the handler to the new
stack top's handler list when that top is a `Try`, otherwise fall back to an
ordinary append — but only when the stack is non-empty: with an empty stack
the handler is dropped (the source has no `else` branch there). -/
def exceptClose (b : Builder) : Builder :=
  match b.stack with
  | [] => b
  | .finallyAcc _ :: rest => { b with stack := rest }
  | .node n :: rest =>
      let node := fillEmptyBody n
      match rest with
      | [] => { b with stack := [] }
      | .node (.Try bd hs oe fb) :: rs =>
          { b with stack := .node (.Try bd (hs ++ [node]) oe fb) :: rs }
      | _ :: _ => appendCurrent { b with stack := rest } node

/-- `FinallyBuilder.__enter__`: push the accumulator frame (the builder
object itself, with its empty `temp_body`). -/
def finallyOpen (b : Builder) : Builder :=
  { b with stack := .finallyAcc [] :: b.stack }

/-- `FinallyBuilder.__exit__`: pop the accumulator, fill it with a `Pass`
if empty, then *extend* the `finalbody` of the new stack top when it is a
`Try`; in every other situation the accumulated statements are dropped.
The `.node` branch mirrors the source popping whatever is on top while
reading `self.temp_body`; it cannot arise from bracketed use. -/
def finallyClose (b : Builder) : Builder :=
  match b.stack with
  | [] => b
  | .node _ :: rest => { b with stack := rest }
  | .finallyAcc temp :: rest =>
      let temp := if temp.isEmpty then [Node.Pass] else temp
      match rest with
      | .node (.Try bd hs oe fb) :: rs =>
          { b with stack := .node (.Try bd hs oe (fb ++ temp)) :: rs }
      | _ => { b with stack := rest }

/-- `WithBuilder.__enter__`: push a fresh `With` with a single
`WithItem(context_expr, optional_vars)`. -/
def withOpen (b : Builder) (context_expr : Expr) (optional_vars : Option Expr) : Builder :=
  pushNode b (.With [⟨context_expr, optional_vars⟩] [])

/-- `WithBuilder.__exit__`. -/
def withClose (b : Builder) : Builder :=
  popNode b

/-- `CodeGenerator.generate`: render the builder's `root_nodes`, then perform
the mode-dependent effect.  `console` prints the code; `file` raises
`ValueError` when no (non-empty) file name is supplied — before anything is
written — and otherwise writes the code to `Path(path) / file_name`.  The
rendered code is returned in either successful mode. -/
def generate (ic : String) (st : Nat) (b : Builder) (mode : Mode)
    (file_name : Option String) (path : String) : Except String (GenOutcome × Nat) :=
  let r := genNodes ic st b.root_nodes
  match mode with
  | .console => .ok ({ returned := r.1, printed := some r.1, written := none }, r.2)
  | .file =>
      match file_name with
      | none => .error "file_name is required when mode=\x27file\x27"
      | some fn =>
          if fn = "" then
            .error "file_name is required when mode=\x27file\x27"
          else
            .ok ({ returned := r.1, printed := none,
                   written := some (path ++ "/" ++ fn, r.1) }, r.2)

/-- Whether a stack frame is a `Try` node (`isinstance(parent, Try)`),
used to state the attachment theorems. -/
def frameIsTry : Frame → Bool
  | .node (.Try ..) => true
  | _ => false

/-- Whether a stack frame is a `Match` node (`isinstance(parent, Match)`). -/
def frameIsMatch : Frame → Bool
  | .node (.Match ..) => true
  | _ => false

/-- Whether a stack frame is an `If`, `While` or `Try` node
(`isinstance(parent, (If, While, Try))`). -/
def frameIsIfWhileTry : Frame → Bool
  | .node (.If ..) | .node (.While ..) | .node (.Try ..) => true
  | _ => false

mutual

/-- Well-formedness of a tree as the builder produces it: every `body` list
is non-empty (guaranteed by the auto-fill on close), all nested nodes are
well-formed, and an expression statement carries a rendering non-empty
expression.  Under this predicate no node renders to the empty string, so the
`if code:` filter of `_generate_nodes` never drops a line. -/
def WFNode : Node → Bool
  | .Pass => true
  | .ExprStmt v => !(safeGenExpr v).isEmpty
  | .Unknown _ => true
  | .If _ body oe => !body.isEmpty && WFList body && WFList oe
  | .Elif _ body => !body.isEmpty && WFList body
  | .Else body => !body.isEmpty && WFList body
  | .For _ _ body oe => !body.isEmpty && WFList body && WFList oe
  | .AsyncFor _ _ body oe => !body.isEmpty && WFList body && WFList oe
  | .While _ body oe => !body.isEmpty && WFList body && WFList oe
  | .Try body hs oe fb =>
      !body.isEmpty && WFList body && WFList hs && WFList oe && WFList fb
  | .ExceptHandler _ _ body => !body.isEmpty && WFList body
  | .Match _ cases => WFList cases
  | .MatchCase _ _ body => !body.isEmpty && WFList body
  | .With _ body => !body.isEmpty && WFList body

/-- Well-formedness of a node list: every member is well-formed. -/
def WFList : List Node → Bool
  | [] => true
  | n :: rest => WFNode n && WFList rest

end

mutual

/-- Line-level denotation of `_generate_node`: the physical lines a node
contributes when rendered at depth `d`.  A node's own header lines are built
at depth `d` and its body's lines at depth `d + 1`, exactly as the
indentation counter moves in the source. -/
def nodeLines (ic : String) (d : Nat) : Node → List String
  | .Pass => [ strRepeat ic d ++ "pass"]
  | .ExprStmt v => [ strRepeat ic d ++ safeGenExpr v]
  | .Unknown kind => [ strRepeat ic d ++ "# Unknown node: " ++ kind]
  | .If t body oe =>
      (strRepeat ic d ++ "if " ++ safeGenExpr (some t) ++ ":") ::
        (listLines ic (d + 1) body ++ listLines ic d oe)
  | .Elif t body =>
      (strRepeat ic d ++ "elif " ++ safeGenExpr (some t) ++ ":") ::
        listLines ic (d + 1) body
  | .Else body =>
      (strRepeat ic d ++ "else:") :: listLines ic (d + 1) body
  | .For tgt it body oe =>
      if oe.isEmpty then
        (strRepeat ic d ++ "for " ++ safeGenExpr (some tgt) ++ " in " ++
          safeGenExpr (some it) ++ ":") :: listLines ic (d + 1) body
      else
        (strRepeat ic d ++ "for " ++ safeGenExpr (some tgt) ++ " in " ++
          safeGenExpr (some it) ++ ":") ::
          (listLines ic (d + 1) body ++
            (strRepeat ic d ++ "else:") :: listLines ic (d + 1) oe)
  | .AsyncFor tgt it body oe =>
      if oe.isEmpty then
        (strRepeat ic d ++ "async for " ++ safeGenExpr (some tgt) ++ " in " ++
          safeGenExpr (some it) ++ ":") :: listLines ic (d + 1) body
      else
        (strRepeat ic d ++ "async for " ++ safeGenExpr (some tgt) ++ " in " ++
          safeGenExpr (some it) ++ ":") ::
          (listLines ic (d + 1) body ++
            (strRepeat ic d ++ "else:") :: listLines ic (d + 1) oe)
  | .While t body oe =>
      if oe.isEmpty then
        (strRepeat ic d ++ "while " ++ safeGenExpr (some t) ++ ":") ::
          listLines ic (d + 1) body
      else
        (strRepeat ic d ++ "while " ++ safeGenExpr (some t) ++ ":") ::
          (listLines ic (d + 1) body ++
            (strRepeat ic d ++ "else:") :: listLines ic (d + 1) oe)
  | .Try body hs oe fb =>
      (strRepeat ic d ++ "try:") ::
        (listLines ic (d + 1) body ++ listLines ic d hs ++
          (if oe.isEmpty then []
           else (strRepeat ic d ++ "else:") :: listLines ic (d + 1) oe) ++
          (if fb.isEmpty then []
           else (strRepeat ic d ++ "finally:") :: listLines ic (d + 1) fb))
  | .ExceptHandler ty nm body =>
      let type_str :=
        match ty with
        | some t => safeGenExpr (some t) ++
            (match nm with
             | some n => if n = "" then "" else " as " ++ n
             | none => "")
        | none =>
            match nm with
            | some n => if n = "" then "" else " " ++ n
            | none => ""
      ((strRepeat ic d ++ "except") ++
        (if type_str = "" then "" else " " ++ type_str) ++ ":") ::
        listLines ic (d + 1) body
  | .Match subj cases =>
      (strRepeat ic d ++ "match " ++ safeGenExpr (some subj) ++ ":") ::
        listLines ic (d + 1) cases
  | .MatchCase pat guard body =>
      (strRepeat ic d ++ "case " ++ safeGenExpr (some pat) ++
        (match guard with
         | some g => " if " ++ safeGenExpr (some g)
         | none => "") ++ ":") :: listLines ic (d + 1) body
  | .With items body =>
      (strRepeat ic d ++ "with " ++ strJoin ", " (items.map genWithItem) ++ ":") ::
        listLines ic (d + 1) body

/-- Lines contributed by a node list: concatenation of each node's lines. -/
def listLines (ic : String) (d : Nat) : List Node → List String
  | [] => []
  | n :: rest => nodeLines ic d n ++ listLines ic d rest

end

/-- A string of length zero is the empty string. -/
theorem str_eq_empty_of_length (s : String) (h : s.length = 0) : s = "" := by
  cases s with
  | mk data =>
      cases data with
      | nil => rfl
      | cons c cs => simp [String.length] at h

/-- Appending a non-empty string on the right gives a non-empty string. -/
theorem append_ne_empty_right (s t : String) (h : t ≠ "") : s ++ t ≠ "" := by
  intro hc
  apply h
  have hl := congrArg String.length hc
  rw [String.length_append] at hl
  exact str_eq_empty_of_length t (by
    have h0 : ("" : String).length = 0 := rfl
    omega)

/-- Appending to a non-empty string on the left gives a non-empty string. -/
theorem append_ne_empty_left (s t : String) (h : s ≠ "") : s ++ t ≠ "" := by
  intro hc
  apply h
  have hl := congrArg String.length hc
  rw [String.length_append] at hl
  exact str_eq_empty_of_length s (by
    have h0 : ("" : String).length = 0 := rfl
    omega)

/-- `strJoin` over a cons with a non-empty tail. -/
theorem strJoin_cons (sep x : String) (xs : List String) (h : xs ≠ []) :
    strJoin sep (x :: xs) = x ++ sep ++ strJoin sep xs := by
  cases xs with
  | nil => exact absurd rfl h
  | cons y ys => rfl

/-- Joining a cons with a non-empty head string is non-empty. -/
theorem strJoin_cons_ne_empty (sep x : String) (xs : List String) (hx : x ≠ "") :
    strJoin sep (x :: xs) ≠ "" := by
  cases xs with
  | nil => exact hx
  | cons y ys =>
      exact append_ne_empty_left _ _ (append_ne_empty_left _ _ hx)

/-- `strJoin` distributes over list append when both parts are non-empty. -/
theorem strJoin_append (sep : String) (l m : List String) (hl : l ≠ []) (hm : m ≠ []) :
    strJoin sep (l ++ m) = strJoin sep l ++ sep ++ strJoin sep m := by
  induction l with
  | nil => exact absurd rfl hl
  | cons x xs ih =>
      cases xs with
      | nil =>
          simp only [List.cons_append, List.nil_append]
          rw [strJoin_cons sep x m hm]
          rfl
      | cons y ys =>
          have hxs : y :: ys ≠ [] := by simp
          have happ : (y :: ys) ++ m ≠ [] := by simp
          rw [List.cons_append, strJoin_cons sep x _ happ, ih hxs,
            strJoin_cons sep x _ hxs]
          simp [String.append_assoc]

mutual

/-- `_generate_node` restores the indentation counter: every
`self.indent_level += 1` is matched by a `-= 1`, so the counter after
rendering a node equals the counter before. -/
theorem genNode_snd (ic : String) (st : Nat) (n : Node) : (genNode ic st n).2 = st := by
  cases n with
  | Pass => simp [genNode]
  | ExprStmt v => simp [genNode]
  | Unknown k => simp [genNode]
  | If t body oe =>
      have h1 := genNodesLines_snd ic (st + 1) body
      have h2 := genNodeSeq_snd ic st oe
      simp [genNode, h1, h2]
  | Elif t body =>
      have h1 := genNodesLines_snd ic (st + 1) body
      simp [genNode, h1]
  | Else body =>
      have h1 := genNodesLines_snd ic (st + 1) body
      simp [genNode, h1]
  | For tgt it body oe =>
      have h1 := genNodesLines_snd ic (st + 1) body
      have h2 := genNodesLines_snd ic (st + 1) oe
      simp only [genNode]
      split
      · simp [h1]
      · simp [h1, h2]
  | AsyncFor tgt it body oe =>
      have h1 := genNodesLines_snd ic (st + 1) body
      have h2 := genNodesLines_snd ic (st + 1) oe
      simp only [genNode]
      split
      · simp [h1]
      · simp [h1, h2]
  | While t body oe =>
      have h1 := genNodesLines_snd ic (st + 1) body
      have h2 := genNodesLines_snd ic (st + 1) oe
      simp only [genNode]
      split
      · simp [h1]
      · simp [h1, h2]
  | Try body hs oe fb =>
      have h1 := genNodesLines_snd ic (st + 1) body
      have h2 := genNodeSeq_snd ic st hs
      have h3 := genNodesLines_snd ic (st + 1) oe
      have h4 := genNodesLines_snd ic (st + 1) fb
      simp only [genNode]
      split
      · split
        · simp [h1, h2]
        · simp [h1, h2, h4]
      · split
        · simp [h1, h2, h3]
        · simp [h1, h2, h3, h4]
  | ExceptHandler ty nm body =>
      have h1 := genNodesLines_snd ic (st + 1) body
      simp [genNode, h1]
  | Match subj cases =>
      have h1 := genNodeSeq_snd ic (st + 1) cases
      simp [genNode, h1]
  | MatchCase pat guard body =>
      have h1 := genNodesLines_snd ic (st + 1) body
      simp [genNode, h1]
  | With items body =>
      have h1 := genNodesLines_snd ic (st + 1) body
      simp [genNode, h1]

/-- The filtering list renderer restores the indentation counter. -/
theorem genNodesLines_snd (ic : String) (st : Nat) (ns : List Node) :
    (genNodesLines ic st ns).2 = st := by
  cases ns with
  | nil => simp [genNodesLines]
  | cons n rest =>
      have h1 := genNode_snd ic st n
      have h2 := genNodesLines_snd ic st rest
      simp only [genNodesLines]
      rw [h1, h2]

/-- The unfiltered list renderer restores the indentation counter. -/
theorem genNodeSeq_snd (ic : String) (st : Nat) (ns : List Node) :
    (genNodeSeq ic st ns).2 = st := by
  cases ns with
  | nil => simp [genNodeSeq]
  | cons n rest =>
      have h1 := genNode_snd ic st n
      have h2 := genNodeSeq_snd ic st rest
      simp only [genNodeSeq]
      rw [h1, h2]

end

/-- `_generate_nodes` restores the indentation counter. -/
theorem genNodes_snd (ic : String) (st : Nat) (ns : List Node) :
    (genNodes ic st ns).2 = st := by
  simp [genNodes, genNodesLines_snd]

/-- C1: for the builder sequence "open conditional → add one statement →
open else-if with one statement → close → open else with one statement →
close → close conditional", the resulting top-level conditional's `or_else`
has exactly two entries in order: first the `Elif` node appended whole (with
its own body), second the single statement of the else body spliced in with
the `Else` wrapper discarded. -/
theorem elif_else_chain_attachment (t t2 : Expr) (s1 s2 s3 : Node) :
    ifClose (elseClose (addNode (elseOpen (elifClose (addNode (elifOpen
        (addNode (ifOpen Builder.empty t) s1) t2) s2))) s3)) =
      { root_nodes := [.If t [s1] [.Elif t2 [s2], s3]], stack := [] } :=
  rfl

/-- C2 counterexample: closing an else-continuation over a *for* loop does
NOT splice the else statements into the loop's `or_else` — the parent check
of `ElseBuilder.__exit__` covers only `If`, `While` and `Try`, so the whole
`Else` node falls back into the loop's body and `or_else` stays empty. -/
theorem for_else_not_spliced :
    forClose (elseClose (addNode (elseOpen (addNode
        (forOpen Builder.empty (.name "i") (.name "xs") false)
        (.ExprStmt (some (.name "a"))))) (.ExprStmt (some (.name "b"))))) =
      { root_nodes := [.For (.name "i") (.name "xs")
          [.ExprStmt (some (.name "a")), .Else [.ExprStmt (some (.name "b"))]] []],
        stack := [] } ∧
    (forClose (elseClose (addNode (elseOpen (addNode
        (forOpen Builder.empty (.name "i") (.name "xs") false)
        (.ExprStmt (some (.name "a"))))) (.ExprStmt (some (.name "b")))))).root_nodes ≠
      [.For (.name "i") (.name "xs") [.ExprStmt (some (.name "a"))]
        [.ExprStmt (some (.name "b"))]] := by
  refine ⟨rfl, ?_⟩
  intro h
  simp [forClose, elseClose, addNode, elseOpen, forOpen, popNode, pushNode,
    appendCurrent, fillEmptyBody, hasBody, getBody, setBody, Builder.empty] at h

/-- C2 amended: only for a *while* loop does closing an else-continuation
splice the else statements into the loop's `or_else`; for a for-loop and an
async-for-loop the `Else` node is appended whole into the loop's body and the
loop's `or_else` stays empty. -/
theorem loop_else_attachment (t tgt it : Expr) (s1 s2 : Node) :
    whileClose (elseClose (addNode (elseOpen (addNode
        (whileOpen Builder.empty t) s1)) s2)) =
      { root_nodes := [.While t [s1] [s2]], stack := [] } ∧
    forClose (elseClose (addNode (elseOpen (addNode
        (forOpen Builder.empty tgt it false) s1)) s2)) =
      { root_nodes := [.For tgt it [s1, .Else [s2]] []], stack := [] } ∧
    forClose (elseClose (addNode (elseOpen (addNode
        (forOpen Builder.empty tgt it true) s1)) s2)) =
      { root_nodes := [.AsyncFor tgt it [s1, .Else [s2]] []], stack := [] } :=
  ⟨rfl, rfl, rfl⟩

/-- C3: closing a case clause appends the clause (with pattern, optional
guard and auto-filled body) to the new stack top's case list exactly when
that top is the enclosing `Match`; in every other situation — another node on
top, or an empty remaining stack — the clause is silently discarded: nothing
is appended anywhere, no exception is raised, and the rest of the builder
state is unchanged. -/
theorem case_clause_attachment :
    (∀ (roots : List Node) (p : Expr) (g : Option Expr) (bd : List Node)
        (s : Expr) (cs : List Node) (rs : List Frame),
      caseClose ⟨roots, .node (.MatchCase p g bd) :: .node (.Match s cs) :: rs⟩ =
        ⟨roots, .node (.Match s (cs ++ [fillEmptyBody (.MatchCase p g bd)])) :: rs⟩) ∧
    (∀ (roots : List Node) (p : Expr) (g : Option Expr) (bd : List Node)
        (f : Frame) (rs : List Frame), frameIsMatch f = false →
      caseClose ⟨roots, .node (.MatchCase p g bd) :: f :: rs⟩ = ⟨roots, f :: rs⟩) ∧
    (∀ (roots : List Node) (p : Expr) (g : Option Expr) (bd : List Node),
      caseClose ⟨roots, [.node (.MatchCase p g bd)]⟩ = ⟨roots, []⟩) := by
  refine ⟨fun roots p g bd s cs rs => rfl, ?_, fun roots p g bd => rfl⟩
  intro roots p g bd f rs h
  cases f with
  | finallyAcc tb => rfl
  | node n => cases n <;> first | rfl | simp [frameIsMatch] at h

/-- Witness for C3: dropping a case clause when the stack top is a `Pass`
node (not a `Match`). -/
theorem case_clause_attachment_witness :
    frameIsMatch (Frame.node .Pass) = false ∧
    caseClose ⟨[], [.node (.MatchCase (.name "p") none []), .node .Pass]⟩ =
      ⟨[], [.node .Pass]⟩ :=
  ⟨rfl, case_clause_attachment.2.1 [] (.name "p") none [] (.node .Pass) [] rfl⟩

/-- C10: closing a cleanup (`finally`) block whose new stack top is not a
`Try` — or with an empty remaining stack — silently discards the accumulated
statements (the builder state is the same as if the block had never been
opened, apart from the popped frame), whereas in the same mismatch situation
a handler clause and an else-continuation fall back to an ordinary-statement
append at the current insertion target. -/
theorem finally_discard_mismatch :
    (∀ (roots temp : List Node) (f : Frame) (rs : List Frame), frameIsTry f = false →
      finallyClose ⟨roots, .finallyAcc temp :: f :: rs⟩ = ⟨roots, f :: rs⟩) ∧
    (∀ (roots temp : List Node), finallyClose ⟨roots, [.finallyAcc temp]⟩ = ⟨roots, []⟩) ∧
    (∀ (roots : List Node) (ty : Option Expr) (nm : Option String) (bd : List Node)
        (f : Frame) (rs : List Frame), frameIsTry f = false →
      exceptClose ⟨roots, .node (.ExceptHandler ty nm bd) :: f :: rs⟩ =
        appendCurrent ⟨roots, f :: rs⟩ (fillEmptyBody (.ExceptHandler ty nm bd))) ∧
    (∀ (roots bd : List Node) (f : Frame) (rs : List Frame),
        frameIsIfWhileTry f = false →
      elseClose ⟨roots, .node (.Else bd) :: f :: rs⟩ =
        appendCurrent ⟨roots, f :: rs⟩ (fillEmptyBody (.Else bd))) := by
  refine ⟨?_, fun roots temp => rfl, ?_, ?_⟩
  · intro roots temp f rs h
    cases f with
    | finallyAcc tb => rfl
    | node n => cases n <;> first | rfl | simp [frameIsTry] at h
  · intro roots ty nm bd f rs h
    cases f with
    | finallyAcc tb => rfl
    | node n => cases n <;> first | rfl | simp [frameIsTry] at h
  · intro roots bd f rs h
    cases bd with
    | nil =>
        cases f with
        | finallyAcc tb => rfl
        | node n => cases n <;> first | rfl | simp [frameIsIfWhileTry] at h
    | cons x xs =>
        cases f with
        | finallyAcc tb => rfl
        | node n => cases n <;> first | rfl | simp [frameIsIfWhileTry] at h

/-- Witness for C10: a cleanup block closed over a `Pass` stack top discards
its statements, while a handler clause in the same situation falls back to an
ordinary append. -/
theorem finally_discard_mismatch_witness :
    frameIsTry (Frame.node .Pass) = false ∧
    finallyClose ⟨[], [.finallyAcc [.Pass], .node .Pass]⟩ = ⟨[], [.node .Pass]⟩ :=
  ⟨rfl, finally_discard_mismatch.1 [] [.Pass] (.node .Pass) [] rfl⟩

/-- Setting then reading the body of a body-carrying node. -/
theorem getBody_setBody (n : Node) (bs : List Node) (h : hasBody n = true) :
    getBody (setBody n bs) = bs := by
  cases n <;> first | rfl | simp [hasBody] at h

/-- A line ending in the keyword `pass` is never the empty string. -/
theorem pass_line_ne_empty (s : String) : ¬(s ++ "pass" = "") :=
  append_ne_empty_right s "pass" (by decide)

/-- C4: every composite closed with an empty body is auto-filled with exactly
one `Pass` placeholder and nothing else, a composite closed with at least one
statement is left untouched, the plain close operation (`_pop_node`) is
exactly "auto-fill then append to the current target", and each composite
kind with body `[Pass]` renders as its header line followed by exactly one
no-op line indented one level deeper. -/
theorem empty_body_autofill :
    (∀ n : Node, hasBody n = true → getBody n = [] →
      getBody (fillEmptyBody n) = [.Pass]) ∧
    (∀ n : Node, getBody n ≠ [] → fillEmptyBody n = n) ∧
    (∀ (roots : List Node) (n : Node) (rest : List Frame),
      popNode ⟨roots, .node n :: rest⟩ = appendCurrent ⟨roots, rest⟩ (fillEmptyBody n)) ∧
    (∀ (ic : String) (d : Nat) (t : Expr),
      genNode ic d (.If t [.Pass] []) =
        (strRepeat ic d ++ "if " ++ genExpr t ++ ":" ++ "\n" ++
          (strRepeat ic (d + 1) ++ "pass"), d)) ∧
    (∀ (ic : String) (d : Nat) (t : Expr),
      genNode ic d (.Elif t [.Pass]) =
        (strRepeat ic d ++ "elif " ++ genExpr t ++ ":" ++ "\n" ++
          (strRepeat ic (d + 1) ++ "pass"), d)) ∧
    (∀ (ic : String) (d : Nat),
      genNode ic d (.Else [.Pass]) =
        (strRepeat ic d ++ "else:" ++ "\n" ++ (strRepeat ic (d + 1) ++ "pass"), d)) ∧
    (∀ (ic : String) (d : Nat) (tgt it : Expr),
      genNode ic d (.For tgt it [.Pass] []) =
        (strRepeat ic d ++ "for " ++ genExpr tgt ++ " in " ++ genExpr it ++ ":" ++ "\n" ++
          (strRepeat ic (d + 1) ++ "pass"), d)) ∧
    (∀ (ic : String) (d : Nat) (tgt it : Expr),
      genNode ic d (.AsyncFor tgt it [.Pass] []) =
        (strRepeat ic d ++ "async for " ++ genExpr tgt ++ " in " ++ genExpr it ++ ":" ++
          "\n" ++ (strRepeat ic (d + 1) ++ "pass"), d)) ∧
    (∀ (ic : String) (d : Nat) (t : Expr),
      genNode ic d (.While t [.Pass] []) =
        (strRepeat ic d ++ "while " ++ genExpr t ++ ":" ++ "\n" ++
          (strRepeat ic (d + 1) ++ "pass"), d)) ∧
    (∀ (ic : String) (d : Nat),
      genNode ic d (.Try [.Pass] [] [] []) =
        (strRepeat ic d ++ "try:" ++ "\n" ++ (strRepeat ic (d + 1) ++ "pass"), d)) ∧
    (∀ (ic : String) (d : Nat),
      genNode ic d (.ExceptHandler none none [.Pass]) =
        (strRepeat ic d ++ "except" ++ ":" ++ "\n" ++ (strRepeat ic (d + 1) ++ "pass"), d)) ∧
    (∀ (ic : String) (d : Nat) (p : Expr),
      genNode ic d (.MatchCase p none [.Pass]) =
        (strRepeat ic d ++ "case " ++ genExpr p ++ ":" ++ "\n" ++
          (strRepeat ic (d + 1) ++ "pass"), d)) ∧
    (∀ (ic : String) (d : Nat) (items : List WithItem),
      genNode ic d (.With items [.Pass]) =
        (strRepeat ic d ++ "with " ++ strJoin ", " (items.map genWithItem) ++ ":" ++
          "\n" ++ (strRepeat ic (d + 1) ++ "pass"), d)) := by
  refine ⟨?_, ?_, fun roots n rest => rfl, ?_, ?_, ?_, ?_, ?_, ?_, ?_, ?_, ?_, ?_⟩
  · intro n h1 h2
    rw [fillEmptyBody, h2]
    simp [h1, getBody_setBody n [.Pass] h1]
  · intro n h
    have : (getBody n).isEmpty = false := by
      cases hb : getBody n with
      | nil => exact absurd hb h
      | cons x xs => rfl
    simp [fillEmptyBody, this]
  all_goals
    intros
    simp [genNode, genNodesLines, genNodeSeq, safeGenExpr, strJoin,
      pass_line_ne_empty, String.append_assoc]

/-- Witness for C4: an empty `Else` body is filled with exactly one `Pass`. -/
theorem empty_body_autofill_witness :
    hasBody (Node.Else []) = true ∧ getBody (Node.Else []) = [] ∧
    getBody (fillEmptyBody (Node.Else [])) = [.Pass] :=
  ⟨rfl, rfl, empty_body_autofill.1 (Node.Else []) rfl rfl⟩

/-- Repeated `add_node` with a `Try` node on top of the stack extends the
`Try` node's body in order. -/
theorem addAll_try_top (xs : List Node) :
    ∀ (roots bd hs oe fb : List Node) (rest : List Frame),
      addAll ⟨roots, .node (.Try bd hs oe fb) :: rest⟩ xs =
        ⟨roots, .node (.Try (bd ++ xs) hs oe fb) :: rest⟩ := by
  induction xs with
  | nil => intro roots bd hs oe fb rest; simp [addAll]
  | cons x xs ih =>
      intro roots bd hs oe fb rest
      rw [show addAll ⟨roots, .node (.Try bd hs oe fb) :: rest⟩ (x :: xs) =
          addAll ⟨roots, .node (.Try (bd ++ [x]) hs oe fb) :: rest⟩ xs from rfl]
      rw [ih]
      simp

/-- Repeated `add_node` with the cleanup accumulator on top of the stack
extends its `temp_body` in order. -/
theorem addAll_finally_top (xs : List Node) :
    ∀ (roots temp : List Node) (rest : List Frame),
      addAll ⟨roots, .finallyAcc temp :: rest⟩ xs =
        ⟨roots, .finallyAcc (temp ++ xs) :: rest⟩ := by
  induction xs with
  | nil => intro roots temp rest; simp [addAll]
  | cons x xs ih =>
      intro roots temp rest
      rw [show addAll ⟨roots, .finallyAcc temp :: rest⟩ (x :: xs) =
          addAll ⟨roots, .finallyAcc (temp ++ [x]) :: rest⟩ xs from rfl]
      rw [ih]
      simp

/-- Closing a cleanup block over a `Try` stack top extends the `Try` node's
`finalbody` with the accumulated statements (auto-filled with `Pass` when
empty). -/
theorem finallyClose_try_top (roots bd hs oe fb : List Node) (rs : List Frame)
    (temp : List Node) :
    finallyClose ⟨roots, .finallyAcc temp :: .node (.Try bd hs oe fb) :: rs⟩ =
      ⟨roots, .node (.Try bd hs oe
        (fb ++ (if temp.isEmpty then [.Pass] else temp))) :: rs⟩ :=
  rfl

/-- C5: for the sequence "open protected block → add any statements → open
and close two handler clauses → open a cleanup block, add statements, close
→ close all", the resulting `Try` has exactly the two handlers in insertion
order and its cleanup list is exactly the statements added inside the cleanup
block, in order, independent of the protected body's statements; moreover
closing a cleanup block over a `Try` always *extends* (never replaces) the
existing `finalbody`. -/
theorem try_handlers_finally_accumulation (ss fs : List Node)
    (ty1 ty2 : Option Expr) (nm1 nm2 : Option String) (hfs : fs ≠ []) :
    tryClose (finallyClose (addAll (finallyOpen (exceptClose (exceptOpen
        (exceptClose (exceptOpen (addAll (tryOpen Builder.empty) ss) ty1 nm1))
        ty2 nm2))) fs)) =
      { root_nodes := [.Try (if ss.isEmpty then [.Pass] else ss)
          [.ExceptHandler ty1 nm1 [.Pass], .ExceptHandler ty2 nm2 [.Pass]] [] fs],
        stack := [] } ∧
    (∀ (roots bd hs oe fb : List Node) (rs : List Frame) (temp : List Node),
      finallyClose ⟨roots, .finallyAcc temp :: .node (.Try bd hs oe fb) :: rs⟩ =
        ⟨roots, .node (.Try bd hs oe
          (fb ++ (if temp.isEmpty then [.Pass] else temp))) :: rs⟩) := by
  have hfs' : fs.isEmpty = false := by
    cases fs with
    | nil => exact absurd rfl hfs
    | cons x xs => rfl
  constructor
  · have h1 : addAll (tryOpen Builder.empty) ss =
        ⟨[], [.node (.Try ss [] [] [])]⟩ := by
      rw [show tryOpen Builder.empty = (⟨[], [.node (.Try [] [] [] [])]⟩ : Builder) from rfl,
        addAll_try_top]
      simp
    rw [h1]
    rw [show exceptClose (exceptOpen (⟨[], [.node (.Try ss [] [] [])]⟩ : Builder) ty1 nm1) =
        ⟨[], [.node (.Try ss [.ExceptHandler ty1 nm1 [.Pass]] [] [])]⟩ from rfl]
    rw [show exceptClose (exceptOpen
        (⟨[], [.node (.Try ss [.ExceptHandler ty1 nm1 [.Pass]] [] [])]⟩ : Builder) ty2 nm2) =
        ⟨[], [.node (.Try ss [.ExceptHandler ty1 nm1 [.Pass],
          .ExceptHandler ty2 nm2 [.Pass]] [] [])]⟩ from rfl]
    rw [show finallyOpen (⟨[], [.node (.Try ss [.ExceptHandler ty1 nm1 [.Pass],
          .ExceptHandler ty2 nm2 [.Pass]] [] [])]⟩ : Builder) =
        ⟨[], [.finallyAcc [], .node (.Try ss [.ExceptHandler ty1 nm1 [.Pass],
          .ExceptHandler ty2 nm2 [.Pass]] [] [])]⟩ from rfl]
    rw [addAll_finally_top]
    simp only [List.nil_append]
    rw [finallyClose_try_top]
    simp only [List.nil_append, hfs', Bool.false_eq_true, if_false]
    rw [show tryClose ⟨[], [.node (.Try ss [.ExceptHandler ty1 nm1 [.Pass],
        .ExceptHandler ty2 nm2 [.Pass]] [] fs)]⟩ =
        appendCurrent ⟨[], []⟩ (fillEmptyBody (.Try ss [.ExceptHandler ty1 nm1 [.Pass],
          .ExceptHandler ty2 nm2 [.Pass]] [] fs)) from rfl]
    simp only [appendCurrent, fillEmptyBody, hasBody, getBody, setBody, Bool.true_and,
      List.nil_append]
    split <;> rfl
  · intro roots bd hs oe fb rs temp
    exact finallyClose_try_top roots bd hs oe fb rs temp

/-- Witness for C5: concrete protected-block scenario with an empty protected
body and one cleanup statement. -/
theorem try_handlers_finally_accumulation_witness :
    tryClose (finallyClose (addAll (finallyOpen (exceptClose (exceptOpen
        (exceptClose (exceptOpen (addAll (tryOpen Builder.empty) []) none none))
        none none))) [.ExprStmt (some (.name "c"))])) =
      { root_nodes := [.Try [.Pass]
          [.ExceptHandler none none [.Pass], .ExceptHandler none none [.Pass]] []
          [.ExprStmt (some (.name "c"))]],
        stack := [] } :=
  (try_handlers_finally_accumulation [] [.ExprStmt (some (.name "c"))]
    none none none none (by simp)).1

/-- C7: rendering is deterministic.  `generate` leaves the renderer's only
mutable state — the indentation counter — exactly where it found it, so a
second `generate` call on the same unmutated builder, starting from the state
the first call left behind, produces the identical outcome (in particular the
identical returned text). -/
theorem rendering_deterministic (ic : String) (st : Nat) (b : Builder)
    (fn : Option String) (path : String) :
    generate ic ((genNodes ic st b.root_nodes).2) b .console fn path =
      generate ic st b .console fn path := by
  rw [genNodes_snd]

/-- C8: in file mode, `generate` raises a `ValueError` before writing
anything when no (non-empty) file name is supplied; with a file name it
writes the rendered text to `path / file_name` and returns that same text. -/
theorem generate_file_mode (ic : String) (st : Nat) (b : Builder) (path : String) :
    (generate ic st b .file none path =
      .error "file_name is required when mode=\x27file\x27") ∧
    (generate ic st b .file (some "") path =
      .error "file_name is required when mode=\x27file\x27") ∧
    (∀ fn : String, fn ≠ "" →
      generate ic st b .file (some fn) path =
        .ok ({ returned := (genNodes ic st b.root_nodes).1, printed := none,
               written := some (path ++ "/" ++ fn, (genNodes ic st b.root_nodes).1) },
             (genNodes ic st b.root_nodes).2)) := by
  refine ⟨rfl, by simp [generate], ?_⟩
  intro fn h
  simp [generate, h]

/-- Witness for C8: writing an empty module to `./out.py`. -/
theorem generate_file_mode_witness :
    generate "\t" 0 Builder.empty .file (some "out.py") "." =
      .ok ({ returned := "", printed := none, written := some ("./out.py", "") }, 0) :=
  (generate_file_mode "\t" 0 Builder.empty ".").2.2 "out.py" (by decide)

/-- C9: a node kind with no matching rendering rule renders as a single
visible placeholder line naming the unknown kind, indented at the current
depth, and never raises (the renderer is total); rendering of the rest of
the node sequence is unaffected: the surrounding nodes contribute exactly
the lines they would contribute without the unknown node. -/
theorem unknown_node_placeholder :
    (∀ (ic : String) (st : Nat) (kind : String),
      genNode ic st (.Unknown kind) =
        (strRepeat ic st ++ "# Unknown node: " ++ kind, st)) ∧
    (∀ (ic : String) (st : Nat) (kind : String) (pre post : List Node),
      genNodesLines ic st (pre ++ .Unknown kind :: post) =
        ((genNodesLines ic st pre).1 ++
          (strRepeat ic st ++ "# Unknown node: " ++ kind) :: (genNodesLines ic st post).1,
         st)) := by
  refine ⟨fun ic st kind => rfl, ?_⟩
  intro ic st kind pre post
  induction pre with
  | nil =>
      have hu : genNode ic st (.Unknown kind) =
          (strRepeat ic st ++ "# Unknown node: " ++ kind, st) := rfl
      simp only [List.nil_append, genNodesLines, hu]
      rw [if_neg (append_ne_empty_left _ _ (append_ne_empty_right _ _ (by decide)))]
      simp [genNodesLines_snd]
  | cons p pre ih =>
      simp only [List.cons_append, genNodesLines, List.append_eq]
      rw [genNode_snd, ih]
      split <;> simp

/-- A list whose `isEmpty` test is `false` is not nil. -/
theorem ne_nil_of_isEmpty_eq_false {α : Type} {l : List α} (h : l.isEmpty = false) :
    l ≠ [] := by
  cases l with
  | nil => simp at h
  | cons x xs => simp

/-- A string whose `isEmpty` test is `false` is not the empty string. -/
theorem str_ne_empty_of_isEmpty_eq_false (s : String) (h : s.isEmpty = false) :
    s ≠ "" := by
  intro hc
  rw [hc] at h
  exact absurd h (by decide)

/-- Every node contributes at least one line. -/
theorem nodeLines_ne_nil (ic : String) (d : Nat) (n : Node) : nodeLines ic d n ≠ [] := by
  cases n <;> simp only [nodeLines] <;> first | (split <;> simp) | simp

/-- A non-empty node list contributes at least one line. -/
theorem listLines_ne_nil (ic : String) (d : Nat) (ns : List Node) (h : ns ≠ []) :
    listLines ic d ns ≠ [] := by
  cases ns with
  | nil => exact absurd rfl h
  | cons n rest =>
      simp only [listLines]
      exact List.append_ne_nil_of_left_ne_nil (nodeLines_ne_nil ic d n) _

/-- `listLines` is the flattening of the per-node line lists. -/
theorem listLines_eq_flatten (ic : String) (d : Nat) (ns : List Node) :
    listLines ic d ns = (ns.map (nodeLines ic d)).flatten := by
  induction ns with
  | nil => rfl
  | cons n rest ih => simp [listLines, ih]

/-- Joining per-block joins equals joining the flattened blocks, as long as
no block is empty. -/
theorem strJoin_flatten (sep : String) (lss : List (List String))
    (h : ∀ l ∈ lss, l ≠ []) :
    strJoin sep (lss.map (strJoin sep)) = strJoin sep lss.flatten := by
  induction lss with
  | nil => rfl
  | cons l rest ih =>
      have hl : l ≠ [] := h l (by simp)
      have hrest : ∀ x ∈ rest, x ≠ [] := fun x hx => h x (by simp [hx])
      cases rest with
      | nil => simp [strJoin]
      | cons m rest2 =>
          have hm : (m :: rest2).flatten ≠ [] := by
            rw [List.flatten_cons]
            exact List.append_ne_nil_of_left_ne_nil (hrest m (by simp)) _
          rw [List.map_cons, strJoin_cons sep _ _ (by simp), List.flatten_cons,
            strJoin_append sep l _ hl hm, ih hrest]

/-- Joining the per-node rendered strings equals joining the node lines. -/
theorem strJoin_map_listLines (ic : String) (d : Nat) (ns : List Node) :
    strJoin "\n" (ns.map (fun n => strJoin "\n" (nodeLines ic d n))) =
      strJoin "\n" (listLines ic d ns) := by
  have h := strJoin_flatten "\n" (ns.map (nodeLines ic d)) (by
    intro l hl
    obtain ⟨x, _, rfl⟩ := List.mem_map.mp hl
    exact nodeLines_ne_nil ic d x)
  rw [List.map_map] at h
  rw [← listLines_eq_flatten] at h
  exact h

/-- Assembling a header line with a rendered body block. -/
theorem strJoin_two (hdr : String) (L : List String) (hL : L ≠ []) :
    strJoin "\n" [hdr, strJoin "\n" L] = strJoin "\n" (hdr :: L) := by
  have h := strJoin_flatten "\n" [[hdr], L] (by
    intro l hl
    simp only [List.mem_cons, List.mem_singleton, List.not_mem_nil, or_false] at hl
    rcases hl with rfl | rfl
    · simp
    · exact hL)
  simpa using h

/-- Assembling a header, a body block, an `else:` header and an else block. -/
theorem strJoin_two_else (hdr hdr2 : String) (L M : List String)
    (hL : L ≠ []) (hM : M ≠ []) :
    strJoin "\n" [hdr, strJoin "\n" L, hdr2, strJoin "\n" M] =
      strJoin "\n" (hdr :: (L ++ hdr2 :: M)) := by
  have h := strJoin_flatten "\n" [[hdr], L, [hdr2], M] (by
    intro l hl
    simp only [List.mem_cons, List.mem_singleton, List.not_mem_nil, or_false] at hl
    rcases hl with rfl | rfl | rfl | rfl
    · simp
    · exact hL
    · simp
    · exact hM)
  simpa using h

/-- Assembling a header, a body block and a sequence of clause blocks. -/
theorem strJoin_hdr_body_seq (hdr : String) (L : List String)
    (lss : List (List String)) (hL : L ≠ []) (h : ∀ l ∈ lss, l ≠ []) :
    strJoin "\n" (hdr :: strJoin "\n" L :: lss.map (strJoin "\n")) =
      strJoin "\n" (hdr :: (L ++ lss.flatten)) := by
  have hj := strJoin_flatten "\n" ([hdr] :: L :: lss) (by
    intro l hl
    simp only [List.mem_cons] at hl
    rcases hl with rfl | rfl | hl
    · simp
    · exact hL
    · exact h l hl)
  simpa using hj

/-- Assembling a header and a sequence of clause blocks (the `match` rule). -/
theorem strJoin_hdr_seq (hdr : String) (lss : List (List String))
    (h : ∀ l ∈ lss, l ≠ []) :
    strJoin "\n" (hdr :: lss.map (strJoin "\n")) =
      strJoin "\n" (hdr :: lss.flatten) := by
  have hj := strJoin_flatten "\n" ([hdr] :: lss) (by
    intro l hl
    simp only [List.mem_cons] at hl
    rcases hl with rfl | hl
    · simp
    · exact h l hl)
  simpa using hj

/-- Assembling a header, a body block, clause blocks, and one trailing
labelled block (`try/except/finally` or `try/except/else`). -/
theorem strJoin_hdr_body_seq_tail (hdr : String) (L : List String)
    (lss : List (List String)) (hdr2 : String) (M : List String)
    (hL : L ≠ []) (hM : M ≠ []) (h : ∀ l ∈ lss, l ≠ []) :
    strJoin "\n" ((hdr :: strJoin "\n" L :: lss.map (strJoin "\n")) ++
        [hdr2, strJoin "\n" M]) =
      strJoin "\n" (hdr :: (L ++ (lss.flatten ++ hdr2 :: M))) := by
  have hj := strJoin_flatten "\n" ([hdr] :: L :: (lss ++ [[hdr2], M])) (by
    intro l hl
    simp only [List.mem_cons, List.mem_append] at hl
    rcases hl with rfl | rfl | hl | rfl | rfl | hfalse
    · simp
    · exact hL
    · exact h l hl
    · simp
    · exact hM
    · exact absurd hfalse (List.not_mem_nil l))
  simpa [strJoin] using hj

/-- Assembling a header, a body block, clause blocks, and two trailing
labelled blocks (`try/except/else/finally`). -/
theorem strJoin_hdr_body_seq_tail2 (hdr : String) (L : List String)
    (lss : List (List String)) (hdr2 : String) (M : List String)
    (hdr3 : String) (N : List String)
    (hL : L ≠ []) (hM : M ≠ []) (hN : N ≠ []) (h : ∀ l ∈ lss, l ≠ []) :
    strJoin "\n" ((hdr :: strJoin "\n" L :: lss.map (strJoin "\n")) ++
        [hdr2, strJoin "\n" M, hdr3, strJoin "\n" N]) =
      strJoin "\n" (hdr :: (L ++ (lss.flatten ++ hdr2 :: (M ++ hdr3 :: N)))) := by
  have hj := strJoin_flatten "\n" ([hdr] :: L :: (lss ++ [[hdr2], M, [hdr3], N])) (by
    intro l hl
    simp only [List.mem_cons, List.mem_append] at hl
    rcases hl with rfl | rfl | hl | rfl | rfl | rfl | rfl | hfalse
    · simp
    · exact hL
    · exact h l hl
    · simp
    · exact hM
    · simp
    · exact hN
    · exact absurd hfalse (List.not_mem_nil l))
  simpa [strJoin] using hj

/-- Under well-formedness no node renders to the empty string: the first line
of every node contains its keyword or (for an expression statement) its
rendered non-empty expression. -/
theorem join_nodeLines_ne_empty (ic : String) (d : Nat) (n : Node)
    (h : WFNode n = true) : strJoin "\n" (nodeLines ic d n) ≠ "" := by
  cases n with
  | Pass =>
      exact strJoin_cons_ne_empty _ _ _ (append_ne_empty_right _ _ (by decide))
  | ExprStmt v =>
      simp only [WFNode, Bool.not_eq_true'] at h
      exact strJoin_cons_ne_empty _ _ _
        (append_ne_empty_right _ _ (str_ne_empty_of_isEmpty_eq_false _ h))
  | Unknown kind =>
      exact strJoin_cons_ne_empty _ _ _
        (append_ne_empty_left _ _ (append_ne_empty_right _ _ (by decide)))
  | If t body oe =>
      exact strJoin_cons_ne_empty _ _ _ (append_ne_empty_right _ _ (by decide))
  | Elif t body =>
      exact strJoin_cons_ne_empty _ _ _ (append_ne_empty_right _ _ (by decide))
  | Else body =>
      exact strJoin_cons_ne_empty _ _ _ (append_ne_empty_right _ _ (by decide))
  | For tgt it body oe =>
      simp only [nodeLines]
      split <;>
        exact strJoin_cons_ne_empty _ _ _ (append_ne_empty_right _ _ (by decide))
  | AsyncFor tgt it body oe =>
      simp only [nodeLines]
      split <;>
        exact strJoin_cons_ne_empty _ _ _ (append_ne_empty_right _ _ (by decide))
  | While t body oe =>
      simp only [nodeLines]
      split <;>
        exact strJoin_cons_ne_empty _ _ _ (append_ne_empty_right _ _ (by decide))
  | Try body hs oe fb =>
      exact strJoin_cons_ne_empty _ _ _ (append_ne_empty_right _ _ (by decide))
  | ExceptHandler ty nm body =>
      exact strJoin_cons_ne_empty _ _ _ (append_ne_empty_right _ _ (by decide))
  | Match subj cases =>
      exact strJoin_cons_ne_empty _ _ _ (append_ne_empty_right _ _ (by decide))
  | MatchCase pat guard body =>
      exact strJoin_cons_ne_empty _ _ _ (append_ne_empty_right _ _ (by decide))
  | With items body =>
      exact strJoin_cons_ne_empty _ _ _ (append_ne_empty_right _ _ (by decide))

mutual

/-- Agreement between the source renderer and the line-level denotation: for
a well-formed node, `_generate_node` produces exactly the newline-join of the
node's lines. -/
theorem genNode_fst_eq (ic : String) (st : Nat) (n : Node) (h : WFNode n = true) :
    (genNode ic st n).1 = strJoin "\n" (nodeLines ic st n) := by
  cases n with
  | Pass => rfl
  | ExprStmt v => rfl
  | Unknown kind => rfl
  | If t body oe =>
      simp only [WFNode, Bool.and_eq_true, Bool.not_eq_true'] at h
      obtain ⟨⟨hbe, hwb⟩, hwo⟩ := h
      have hbody : body ≠ [] := ne_nil_of_isEmpty_eq_false hbe
      have hB := genNodesLines_fst_eq ic (st + 1) body hwb
      have hC := genNodeSeq_fst_eq ic st oe hwo
      have hs := genNodesLines_snd ic (st + 1) body
      simp only [genNode, hs, Nat.add_sub_cancel]
      rw [hB, hC, strJoin_map_listLines]
      rw [show oe.map (fun n => strJoin "\n" (nodeLines ic st n)) =
          (oe.map (nodeLines ic st)).map (strJoin "\n") from by rw [List.map_map]; rfl]
      rw [strJoin_hdr_body_seq _ _ _ (listLines_ne_nil ic (st + 1) body hbody) (by
        intro l hl
        obtain ⟨x, _, rfl⟩ := List.mem_map.mp hl
        exact nodeLines_ne_nil ic st x)]
      rw [← listLines_eq_flatten]
      rfl
  | Elif t body =>
      simp only [WFNode, Bool.and_eq_true, Bool.not_eq_true'] at h
      obtain ⟨hbe, hwb⟩ := h
      have hbody : body ≠ [] := ne_nil_of_isEmpty_eq_false hbe
      have hB := genNodesLines_fst_eq ic (st + 1) body hwb
      simp only [genNode]
      rw [hB, strJoin_map_listLines,
        strJoin_two _ _ (listLines_ne_nil ic (st + 1) body hbody)]
      rfl
  | Else body =>
      simp only [WFNode, Bool.and_eq_true, Bool.not_eq_true'] at h
      obtain ⟨hbe, hwb⟩ := h
      have hbody : body ≠ [] := ne_nil_of_isEmpty_eq_false hbe
      have hB := genNodesLines_fst_eq ic (st + 1) body hwb
      simp only [genNode]
      rw [hB, strJoin_map_listLines,
        strJoin_two _ _ (listLines_ne_nil ic (st + 1) body hbody)]
      rfl
  | For tgt it body oe =>
      simp only [WFNode, Bool.and_eq_true, Bool.not_eq_true'] at h
      obtain ⟨⟨hbe, hwb⟩, hwo⟩ := h
      have hbody : body ≠ [] := ne_nil_of_isEmpty_eq_false hbe
      have hB := genNodesLines_fst_eq ic (st + 1) body hwb
      have hs := genNodesLines_snd ic (st + 1) body
      cases hoe : oe.isEmpty with
      | true =>
          simp only [genNode, nodeLines, hoe, if_true]
          rw [hB, strJoin_map_listLines,
            strJoin_two _ _ (listLines_ne_nil ic (st + 1) body hbody)]
      | false =>
          have hoel : oe ≠ [] := ne_nil_of_isEmpty_eq_false hoe
          have hO := genNodesLines_fst_eq ic (st + 1) oe hwo
          simp only [genNode, nodeLines, hoe, Bool.false_eq_true, if_false, hs,
            Nat.add_sub_cancel]
          rw [hB, hO, strJoin_map_listLines, strJoin_map_listLines,
            strJoin_two_else _ _ _ _ (listLines_ne_nil ic (st + 1) body hbody)
              (listLines_ne_nil ic (st + 1) oe hoel)]
  | AsyncFor tgt it body oe =>
      simp only [WFNode, Bool.and_eq_true, Bool.not_eq_true'] at h
      obtain ⟨⟨hbe, hwb⟩, hwo⟩ := h
      have hbody : body ≠ [] := ne_nil_of_isEmpty_eq_false hbe
      have hB := genNodesLines_fst_eq ic (st + 1) body hwb
      have hs := genNodesLines_snd ic (st + 1) body
      cases hoe : oe.isEmpty with
      | true =>
          simp only [genNode, nodeLines, hoe, if_true]
          rw [hB, strJoin_map_listLines,
            strJoin_two _ _ (listLines_ne_nil ic (st + 1) body hbody)]
      | false =>
          have hoel : oe ≠ [] := ne_nil_of_isEmpty_eq_false hoe
          have hO := genNodesLines_fst_eq ic (st + 1) oe hwo
          simp only [genNode, nodeLines, hoe, Bool.false_eq_true, if_false, hs,
            Nat.add_sub_cancel]
          rw [hB, hO, strJoin_map_listLines, strJoin_map_listLines,
            strJoin_two_else _ _ _ _ (listLines_ne_nil ic (st + 1) body hbody)
              (listLines_ne_nil ic (st + 1) oe hoel)]
  | While t body oe =>
      simp only [WFNode, Bool.and_eq_true, Bool.not_eq_true'] at h
      obtain ⟨⟨hbe, hwb⟩, hwo⟩ := h
      have hbody : body ≠ [] := ne_nil_of_isEmpty_eq_false hbe
      have hB := genNodesLines_fst_eq ic (st + 1) body hwb
      have hs := genNodesLines_snd ic (st + 1) body
      cases hoe : oe.isEmpty with
      | true =>
          simp only [genNode, nodeLines, hoe, if_true]
          rw [hB, strJoin_map_listLines,
            strJoin_two _ _ (listLines_ne_nil ic (st + 1) body hbody)]
      | false =>
          have hoel : oe ≠ [] := ne_nil_of_isEmpty_eq_false hoe
          have hO := genNodesLines_fst_eq ic (st + 1) oe hwo
          simp only [genNode, nodeLines, hoe, Bool.false_eq_true, if_false, hs,
            Nat.add_sub_cancel]
          rw [hB, hO, strJoin_map_listLines, strJoin_map_listLines,
            strJoin_two_else _ _ _ _ (listLines_ne_nil ic (st + 1) body hbody)
              (listLines_ne_nil ic (st + 1) oe hoel)]
  | Try body hs oe fb =>
      simp only [WFNode, Bool.and_eq_true, Bool.not_eq_true'] at h
      obtain ⟨⟨⟨⟨hbe, hwb⟩, hwh⟩, hwo⟩, hwf⟩ := h
      have hbody : body ≠ [] := ne_nil_of_isEmpty_eq_false hbe
      have hB := genNodesLines_fst_eq ic (st + 1) body hwb
      have hH := genNodeSeq_fst_eq ic st hs hwh
      have hsb := genNodesLines_snd ic (st + 1) body
      have hsh := genNodeSeq_snd ic st hs
      have hmem : ∀ l ∈ hs.map (nodeLines ic st), l ≠ [] := by
        intro l hl
        obtain ⟨x, _, rfl⟩ := List.mem_map.mp hl
        exact nodeLines_ne_nil ic st x
      cases hoe : oe.isEmpty with
      | true =>
          cases hfb : fb.isEmpty with
          | true =>
              simp only [genNode, nodeLines, hoe, hfb, if_true, hsb, hsh,
                Nat.add_sub_cancel]
              rw [hB, hH, strJoin_map_listLines]
              rw [show hs.map (fun n => strJoin "\n" (nodeLines ic st n)) =
                  (hs.map (nodeLines ic st)).map (strJoin "\n") from by rw [List.map_map]; rfl]
              rw [strJoin_hdr_body_seq _ _ _
                (listLines_ne_nil ic (st + 1) body hbody) hmem]
              rw [← listLines_eq_flatten]
              simp
          | false =>
              have hfbl : fb ≠ [] := ne_nil_of_isEmpty_eq_false hfb
              have hF := genNodesLines_fst_eq ic (st + 1) fb hwf
              simp only [genNode, nodeLines, hoe, hfb, Bool.false_eq_true, if_true,
                if_false, hsb, hsh, Nat.add_sub_cancel]
              rw [hB, hH, hF, strJoin_map_listLines, strJoin_map_listLines]
              rw [show hs.map (fun n => strJoin "\n" (nodeLines ic st n)) =
                  (hs.map (nodeLines ic st)).map (strJoin "\n") from by rw [List.map_map]; rfl]
              rw [strJoin_hdr_body_seq_tail _ _ _ _ _
                (listLines_ne_nil ic (st + 1) body hbody)
                (listLines_ne_nil ic (st + 1) fb hfbl) hmem]
              rw [← listLines_eq_flatten]
              simp
      | false =>
          have hoel : oe ≠ [] := ne_nil_of_isEmpty_eq_false hoe
          have hO := genNodesLines_fst_eq ic (st + 1) oe hwo
          have hso := genNodesLines_snd ic (st + 1) oe
          cases hfb : fb.isEmpty with
          | true =>
              simp only [genNode, nodeLines, hoe, hfb, Bool.false_eq_true, if_true,
                if_false, hsb, hsh, Nat.add_sub_cancel]
              rw [hB, hH, hO, strJoin_map_listLines, strJoin_map_listLines]
              rw [show hs.map (fun n => strJoin "\n" (nodeLines ic st n)) =
                  (hs.map (nodeLines ic st)).map (strJoin "\n") from by rw [List.map_map]; rfl]
              rw [strJoin_hdr_body_seq_tail _ _ _ _ _
                (listLines_ne_nil ic (st + 1) body hbody)
                (listLines_ne_nil ic (st + 1) oe hoel) hmem]
              rw [← listLines_eq_flatten]
              simp
          | false =>
              have hfbl : fb ≠ [] := ne_nil_of_isEmpty_eq_false hfb
              have hF := genNodesLines_fst_eq ic (st + 1) fb hwf
              simp only [genNode, nodeLines, hoe, hfb, Bool.false_eq_true, if_false,
                hsb, hsh, hso, Nat.add_sub_cancel]
              rw [hB, hH, hO, hF, strJoin_map_listLines, strJoin_map_listLines,
                strJoin_map_listLines]
              rw [show hs.map (fun n => strJoin "\n" (nodeLines ic st n)) =
                  (hs.map (nodeLines ic st)).map (strJoin "\n") from by rw [List.map_map]; rfl]
              rw [strJoin_hdr_body_seq_tail2 _ _ _ _ _ _ _
                (listLines_ne_nil ic (st + 1) body hbody)
                (listLines_ne_nil ic (st + 1) oe hoel)
                (listLines_ne_nil ic (st + 1) fb hfbl) hmem]
              rw [← listLines_eq_flatten]
              simp
  | ExceptHandler ty nm body =>
      simp only [WFNode, Bool.and_eq_true, Bool.not_eq_true'] at h
      obtain ⟨hbe, hwb⟩ := h
      have hbody : body ≠ [] := ne_nil_of_isEmpty_eq_false hbe
      have hB := genNodesLines_fst_eq ic (st + 1) body hwb
      simp only [genNode, nodeLines]
      rw [hB, strJoin_map_listLines,
        strJoin_two _ _ (listLines_ne_nil ic (st + 1) body hbody)]
  | Match subj cases =>
      simp only [WFNode] at h
      have hC := genNodeSeq_fst_eq ic (st + 1) cases h
      simp only [genNode, nodeLines]
      rw [hC]
      rw [show cases.map (fun n => strJoin "\n" (nodeLines ic (st + 1) n)) =
          (cases.map (nodeLines ic (st + 1))).map (strJoin "\n") from by
        rw [List.map_map]; rfl]
      rw [strJoin_hdr_seq _ _ (by
        intro l hl
        obtain ⟨x, _, rfl⟩ := List.mem_map.mp hl
        exact nodeLines_ne_nil ic (st + 1) x)]
      rw [← listLines_eq_flatten]
  | MatchCase pat guard body =>
      simp only [WFNode, Bool.and_eq_true, Bool.not_eq_true'] at h
      obtain ⟨hbe, hwb⟩ := h
      have hbody : body ≠ [] := ne_nil_of_isEmpty_eq_false hbe
      have hB := genNodesLines_fst_eq ic (st + 1) body hwb
      simp only [genNode, nodeLines]
      rw [hB, strJoin_map_listLines,
        strJoin_two _ _ (listLines_ne_nil ic (st + 1) body hbody)]
  | With items body =>
      simp only [WFNode, Bool.and_eq_true, Bool.not_eq_true'] at h
      obtain ⟨hbe, hwb⟩ := h
      have hbody : body ≠ [] := ne_nil_of_isEmpty_eq_false hbe
      have hB := genNodesLines_fst_eq ic (st + 1) body hwb
      simp only [genNode, nodeLines]
      rw [hB, strJoin_map_listLines,
        strJoin_two _ _ (listLines_ne_nil ic (st + 1) body hbody)]

/-- Agreement for the filtering list renderer: under well-formedness no
rendered string is empty, so nothing is filtered out. -/
theorem genNodesLines_fst_eq (ic : String) (st : Nat) (ns : List Node)
    (h : WFList ns = true) :
    (genNodesLines ic st ns).1 = ns.map (fun n => strJoin "\n" (nodeLines ic st n)) := by
  cases ns with
  | nil => rfl
  | cons n rest =>
      simp only [WFList, Bool.and_eq_true] at h
      obtain ⟨hn, hr⟩ := h
      have hA := genNode_fst_eq ic st n hn
      have hs := genNode_snd ic st n
      have hB := genNodesLines_fst_eq ic st rest hr
      simp only [genNodesLines, hs]
      rw [hA, hB, if_neg (join_nodeLines_ne_empty ic st n hn)]
      simp

/-- Agreement for the unfiltered clause renderer. -/
theorem genNodeSeq_fst_eq (ic : String) (st : Nat) (ns : List Node)
    (h : WFList ns = true) :
    (genNodeSeq ic st ns).1 = ns.map (fun n => strJoin "\n" (nodeLines ic st n)) := by
  cases ns with
  | nil => rfl
  | cons n rest =>
      simp only [WFList, Bool.and_eq_true] at h
      obtain ⟨hn, hr⟩ := h
      have hA := genNode_fst_eq ic st n hn
      have hs := genNode_snd ic st n
      have hB := genNodeSeq_fst_eq ic st rest hr
      simp only [genNodeSeq, hs]
      rw [hA, hB]
      simp

end

mutual

/-- Raising the rendering depth by one prefixes every line with one more copy
of the indentation unit. -/
theorem nodeLines_shift (ic : String) (d : Nat) (n : Node) :
    nodeLines ic (d + 1) n = (nodeLines ic d n).map (fun l => ic ++ l) := by
  cases n with
  | Pass => simp [nodeLines, strRepeat, String.append_assoc]
  | ExprStmt v => simp [nodeLines, strRepeat, String.append_assoc]
  | Unknown kind => simp [nodeLines, strRepeat, String.append_assoc]
  | If t body oe =>
      have h1 := listLines_shift ic (d + 1) body
      have h2 := listLines_shift ic d oe
      simp [nodeLines, strRepeat, String.append_assoc, h1, h2]
  | Elif t body =>
      have h1 := listLines_shift ic (d + 1) body
      simp [nodeLines, strRepeat, String.append_assoc, h1]
  | Else body =>
      have h1 := listLines_shift ic (d + 1) body
      simp [nodeLines, strRepeat, String.append_assoc, h1]
  | For tgt it body oe =>
      have h1 := listLines_shift ic (d + 1) body
      have h2 := listLines_shift ic (d + 1) oe
      cases hoe : oe.isEmpty with
      | true => simp [nodeLines, hoe, strRepeat, String.append_assoc, h1]
      | false => simp [nodeLines, hoe, strRepeat, String.append_assoc, h1, h2]
  | AsyncFor tgt it body oe =>
      have h1 := listLines_shift ic (d + 1) body
      have h2 := listLines_shift ic (d + 1) oe
      cases hoe : oe.isEmpty with
      | true => simp [nodeLines, hoe, strRepeat, String.append_assoc, h1]
      | false => simp [nodeLines, hoe, strRepeat, String.append_assoc, h1, h2]
  | While t body oe =>
      have h1 := listLines_shift ic (d + 1) body
      have h2 := listLines_shift ic (d + 1) oe
      cases hoe : oe.isEmpty with
      | true => simp [nodeLines, hoe, strRepeat, String.append_assoc, h1]
      | false => simp [nodeLines, hoe, strRepeat, String.append_assoc, h1, h2]
  | Try body hs oe fb =>
      have h1 := listLines_shift ic (d + 1) body
      have h2 := listLines_shift ic d hs
      have h3 := listLines_shift ic (d + 1) oe
      have h4 := listLines_shift ic (d + 1) fb
      cases hoe : oe.isEmpty with
      | true =>
          cases hfb : fb.isEmpty with
          | true => simp [nodeLines, hoe, hfb, strRepeat, String.append_assoc, h1, h2]
          | false =>
              simp [nodeLines, hoe, hfb, strRepeat, String.append_assoc, h1, h2, h4]
      | false =>
          cases hfb : fb.isEmpty with
          | true =>
              simp [nodeLines, hoe, hfb, strRepeat, String.append_assoc, h1, h2, h3]
          | false =>
              simp [nodeLines, hoe, hfb, strRepeat, String.append_assoc, h1, h2, h3, h4]
  | ExceptHandler ty nm body =>
      have h1 := listLines_shift ic (d + 1) body
      simp [nodeLines, strRepeat, String.append_assoc, h1]
  | Match subj cases =>
      have h1 := listLines_shift ic (d + 1) cases
      simp [nodeLines, strRepeat, String.append_assoc, h1]
  | MatchCase pat guard body =>
      have h1 := listLines_shift ic (d + 1) body
      simp [nodeLines, strRepeat, String.append_assoc, h1]
  | With items body =>
      have h1 := listLines_shift ic (d + 1) body
      simp [nodeLines, strRepeat, String.append_assoc, h1]

/-- List version of `nodeLines_shift`. -/
theorem listLines_shift (ic : String) (d : Nat) (ns : List Node) :
    listLines ic (d + 1) ns = (listLines ic d ns).map (fun l => ic ++ l) := by
  cases ns with
  | nil => rfl
  | cons n rest =>
      have h1 := nodeLines_shift ic d n
      have h2 := listLines_shift ic d rest
      simp [listLines, h1, h2]

end

/-- Rendering at depth `d` prefixes every line of the depth-0 rendering with
exactly `d` copies of the indentation unit. -/
theorem nodeLines_prefix (ic : String) (d : Nat) (n : Node) :
    nodeLines ic d n = (nodeLines ic 0 n).map (fun l => strRepeat ic d ++ l) := by
  induction d with
  | zero => simp [strRepeat]
  | succ d ih =>
      rw [nodeLines_shift, ih, List.map_map]
      refine List.map_congr_left fun l _ => ?_
      simp [Function.comp, strRepeat, String.append_assoc]

/-- C6: the indentation invariant.  For every well-formed node and every
configured indentation unit, rendering at nesting depth `d` produces exactly
the depth-0 lines each prefixed by `d` copies of the unit.  Since, by
definition of the renderer (and of `nodeLines`), a node's own header lines
are built at its depth `d` while its body's lines are built at depth `d + 1`
(the counter is incremented before the body and decremented after), this says
precisely that header lines carry `d` repetitions of the unit and body lines
`d + 1`, at every depth `d ≥ 0`. -/
theorem generator_indentation (ic : String) (d : Nat) (n : Node)
    (h : WFNode n = true) :
    (genNode ic d n).1 =
      strJoin "\n" ((nodeLines ic 0 n).map (fun l => strRepeat ic d ++ l)) := by
  rw [genNode_fst_eq ic d n h, ← nodeLines_prefix]

/-- Witness for C6: an `if` with a `pass` body rendered with a tab unit at
depth 2. -/
theorem generator_indentation_witness :
    WFNode (.If (.name "x") [.Pass] []) = true ∧
    (genNode "\t" 2 (.If (.name "x") [.Pass] [])).1 =
      strJoin "\n" ((nodeLines "\t" 0 (.If (.name "x") [.Pass] [])).map
        (fun l => strRepeat "\t" 2 ++ l)) :=
  ⟨rfl, generator_indentation "\t" 2 (.If (.name "x") [.Pass] []) rfl⟩

end PyCraft
